import Mathlib

/-!
Verification development for the cobrayaml command-tree builder.

The definitions below are a shallow embedding of the Go sources:
`command_builder.go` (config model, `BuildRootCommand`, `buildCommand`,
`setArgs`, `addFlags`), the validator file (`ValidateConfig` and its
helpers), and `readme_generator.go` (`collectDocsConfig`,
`collectCommandDoc`, `filterVisibleFlags`).

Modelling conventions:
* Go maps (`map[string]CommandConfig`) are embedded as association lists
  `List (String × CommandConfig)`; the list order stands for the (in Go
  unspecified, run-dependent) `range` iteration order of the map, and the
  keys of a Go map are unique.
* Go `int` is embedded as `Int`, `string` as `String`, slices as `List`.
* Third-party behaviour that the sources rely on is embedded from its
  documented semantics and marked as such: the cobra positional-argument
  validators (`cobra.NoArgs`, `ExactArgs`, ...) and `fmt.Sscanf` with a
  `"%d"` verb.
* `fmt`'s `%q` verb is embedded as plain double-quoting (none of the
  statements below exercise characters that `%q` would escape).
-/

/-! ### String helpers (Go `strings` package behaviour) -/

/-- Lexicographic order on character lists, comparing code points.
Models Go byte-wise string comparison used by `sort.Strings` (the
configuration keys involved are ASCII, where the two orders agree). -/
def charListLe : List Char → List Char → Bool
  | [], _ => true
  | _ :: _, [] => false
  | a :: as, b :: bs =>
    if a.toNat < b.toNat then true
    else if b.toNat < a.toNat then false
    else charListLe as bs

/-- String order used to model `sort.Strings`. -/
def strLe (a b : String) : Bool := charListLe a.data b.data

/-- Predicate `strSorted l` holds when `l` is ascending under `strLe`. -/
def strSorted : List String → Bool
  | [] => true
  | [_] => true
  | a :: b :: rest => strLe a b && strSorted (b :: rest)

/-- One insertion step of an insertion sort on key/value pairs, ordered by
`strLe` on the key. -/
def insertByKey {α : Type} (p : String × α) : List (String × α) → List (String × α)
  | [] => [p]
  | q :: rest => if strLe p.1 q.1 then p :: q :: rest else q :: insertByKey p rest

/-- Sorting an association list by key.  Models the Go pattern of
collecting a map's keys, `sort.Strings` on them, and indexing the map with
each key in turn: for a map (unique keys) the two produce the same
key/value enumeration. -/
def sortByKey {α : Type} : List (String × α) → List (String × α)
  | [] => []
  | p :: rest => insertByKey p (sortByKey rest)

/-- Splitter state of Go `strings.Fields`: splits around runs of
whitespace; `acc` holds the current field reversed. -/
def goFieldsAux : List Char → List Char → List (List Char)
  | [], acc => if acc.isEmpty then [] else [acc.reverse]
  | c :: rest, acc =>
    if c.isWhitespace then
      if acc.isEmpty then goFieldsAux rest [] else acc.reverse :: goFieldsAux rest []
    else goFieldsAux rest (c :: acc)

/-- Go `strings.Fields`: the whitespace-delimited tokens of a string. -/
def goFields (s : String) : List String :=
  (goFieldsAux s.data []).map String.mk

/-- Modelled from the documented semantics of `fmt.Sscanf(s, "%d", &i)`
scanning into a 64-bit Go `int`: skip leading whitespace, read an
optional sign and a non-empty digit run (base 10); trailing characters
are left unconsumed and do not cause an error.  Returns `none` when no
integer can be read or the value is outside the 64-bit range (Go reports
a range error, which the builder also treats as a failed scan). -/
def sscanfInt (s : String) : Option Int :=
  let cs := s.data.dropWhile Char.isWhitespace
  let signedTail : Bool × List Char :=
    match cs with
    | '-' :: r => (true, r)
    | '+' :: r => (false, r)
    | _ => (false, cs)
  let ds := signedTail.2.takeWhile Char.isDigit
  if ds.isEmpty then none
  else
    let v : Nat := ds.foldl (fun a c => a * 10 + (c.toNat - 48)) 0
    let signed : Int := if signedTail.1 then -(v : Int) else (v : Int)
    if signed < -(2 ^ 63) ∨ 2 ^ 63 - 1 < signed then none else some signed

/-! ### Config model (`command_builder.go`) -/

/-- Structure `ArgsConfig`: argument-count policy of a command node. -/
structure ArgsConfig where
  type : String
  count : Int
  min : Int
  max : Int
deriving Repr, DecidableEq

/-- The `ArgsType*` constants and `SupportedArgsTypes`. -/
def ArgsTypeNone : String := "none"

def ArgsTypeAny : String := "any"

def ArgsTypeExact : String := "exact"

def ArgsTypeMin : String := "min"

def ArgsTypeMax : String := "max"

def ArgsTypeRange : String := "range"

/-- The list `SupportedArgsTypes` from the source. -/
def SupportedArgsTypes : List String :=
  [ArgsTypeNone, ArgsTypeAny, ArgsTypeExact, ArgsTypeMin, ArgsTypeMax, ArgsTypeRange]

/-- The list `SupportedFlagTypes` from the source. -/
def SupportedFlagTypes : List String := ["string", "bool", "int", "stringSlice"]

/-- Structure `FlagConfig`: one flag declaration. -/
structure FlagConfig where
  name : String
  shorthand : String
  type : String
  defaultValue : String
  usage : String
  required : Bool
  persistent : Bool
  hidden : Bool
deriving Repr, DecidableEq

/-- Type `CommandConfig`: one command node; `commands` is the nested
subcommand map, embedded as an association list (see the header). -/
inductive CommandConfig where
  | mk : (use : String) → (aliases : List String) → (short : String) → (long : String) →
      (args : Option ArgsConfig) → (runFunc : String) → (flags : List FlagConfig) →
      (commands : List (String × CommandConfig)) → (hidden : Bool) → CommandConfig
deriving Repr

def CommandConfig.use : CommandConfig → String
  | .mk u _ _ _ _ _ _ _ _ => u

def CommandConfig.aliases : CommandConfig → List String
  | .mk _ a _ _ _ _ _ _ _ => a

def CommandConfig.short : CommandConfig → String
  | .mk _ _ s _ _ _ _ _ _ => s

def CommandConfig.long : CommandConfig → String
  | .mk _ _ _ l _ _ _ _ _ => l

def CommandConfig.args : CommandConfig → Option ArgsConfig
  | .mk _ _ _ _ a _ _ _ _ => a

def CommandConfig.runFunc : CommandConfig → String
  | .mk _ _ _ _ _ r _ _ _ => r

def CommandConfig.flags : CommandConfig → List FlagConfig
  | .mk _ _ _ _ _ _ f _ _ => f

def CommandConfig.commands : CommandConfig → List (String × CommandConfig)
  | .mk _ _ _ _ _ _ _ c _ => c

def CommandConfig.hidden : CommandConfig → Bool
  | .mk _ _ _ _ _ _ _ _ h => h

/-- Structure `ToolConfig`: the root configuration document. -/
structure ToolConfig where
  name : String
  description : String
  version : String
  root : CommandConfig
  commands : List (String × CommandConfig)

/-! ### Validator -/

/-- Structure `ValidationError`: the aggregate of all collected violation strings. -/
structure ValidationError where
  errors : List String
deriving Repr, DecidableEq

/-- Method `ValidationError.Error()`: the formatted report — a count header
followed by one bulleted line per violation. -/
def ValidationError.Error (e : ValidationError) : String :=
  if e.errors.isEmpty then ""
  else
    "validation failed with " ++ toString e.errors.length ++ " error(s):\n"
      ++ String.join (e.errors.map (fun err => "  - " ++ err ++ "\n"))

/-- Format of `command %q: <text>` messages. -/
def cmdMsg (path text : String) : String :=
  "command \"" ++ path ++ "\": " ++ text

/-- Message of a duplicate flag name within one command. -/
def dupFlagNameMsg (path n : String) : String :=
  cmdMsg path ("duplicate flag name \"" ++ n ++ "\"")

/-- Message of a duplicate flag shorthand within one command. -/
def dupFlagShorthandMsg (path s : String) : String :=
  cmdMsg path ("duplicate flag shorthand \"" ++ s ++ "\"")

/-- Message of a duplicate command name at root level. -/
def dupRootCmdMsg (n : String) : String :=
  "duplicate command name \"" ++ n ++ "\" at root level"

/-- Message of a duplicate subcommand name below `path`. -/
def dupSubCmdMsg (path n : String) : String :=
  cmdMsg path ("duplicate subcommand name \"" ++ n ++ "\"")

/-- Function `validateToolConfig`: the root document must carry a name. -/
def validateToolConfig (config : ToolConfig) : List String :=
  if config.name = "" then ["tool config: name is required"] else []

/-- Function `validateArgsConfig`: type membership and the numeric bounds. -/
def validateArgsConfig (args : Option ArgsConfig) (cmdPath : String) : List String :=
  match args with
  | none => []
  | some a =>
    (if a.type ≠ "" ∧ a.type ∉ SupportedArgsTypes then
      [cmdMsg cmdPath ("invalid args type \"" ++ a.type
        ++ "\" (must be one of: " ++ String.intercalate ", " SupportedArgsTypes ++ ")")]
    else [])
    ++
    (if a.type = ArgsTypeExact then
      if a.count < 1 then [cmdMsg cmdPath "args type 'exact' requires count >= 1"] else []
    else if a.type = ArgsTypeMin then
      if a.min < 0 then [cmdMsg cmdPath "args type 'min' requires min >= 0"] else []
    else if a.type = ArgsTypeMax then
      if a.max < 1 then [cmdMsg cmdPath "args type 'max' requires max >= 1"] else []
    else if a.type = ArgsTypeRange then
      (if a.min < 0 then [cmdMsg cmdPath "args type 'range' requires min >= 0"] else [])
      ++ (if a.max < 1 then [cmdMsg cmdPath "args type 'range' requires max >= 1"] else [])
      ++ (if a.min > a.max then
          [cmdMsg cmdPath ("args type 'range' requires min <= max (got min="
            ++ toString a.min ++ ", max=" ++ toString a.max ++ ")")]
        else [])
    else [])

/-- Function `validateCommandConfig`: required `use`/`short` plus the args check. -/
def validateCommandConfig (config : CommandConfig) (path : String) : List String :=
  (if config.use = "" then [cmdMsg path "use is required"] else [])
  ++ (if config.short = "" then [cmdMsg path "short description is required"] else [])
  ++ validateArgsConfig config.args path

/-- Function `validateFlags`: per-flag required fields. -/
def validateFlags (flags : List FlagConfig) (cmdPath : String) : List String :=
  flags.flatMap (fun flag =>
    (if flag.name = "" then [cmdMsg cmdPath "flag name is required"] else [])
    ++ (if flag.type = "" then
        if flag.name ≠ "" then
          ["command \"" ++ cmdPath ++ "\", flag \"" ++ flag.name
            ++ "\": type is required"]
        else [cmdMsg cmdPath "flag type is required"]
      else [])
    ++ (if flag.usage = "" then
        if flag.name ≠ "" then
          ["command \"" ++ cmdPath ++ "\", flag \"" ++ flag.name
            ++ "\": usage is required"]
        else [cmdMsg cmdPath "flag usage is required"]
      else []))

/-- Loop body of `validateFlagDuplicates`: walks the flag list carrying
the name and shorthand sets seen so far (the Go `names`/`shorthands`
maps); empty names and shorthands are never entered into the sets. -/
def validateFlagDuplicatesGo (cmdPath : String) :
    List FlagConfig → List String → List String → List String
  | [], _, _ => []
  | f :: rest, names, shorthands =>
    (if f.name ≠ "" ∧ f.name ∈ names then [dupFlagNameMsg cmdPath f.name] else [])
    ++ (if f.shorthand ≠ "" ∧ f.shorthand ∈ shorthands then
        [dupFlagShorthandMsg cmdPath f.shorthand] else [])
    ++ validateFlagDuplicatesGo cmdPath rest
        (if f.name ≠ "" then f.name :: names else names)
        (if f.shorthand ≠ "" then f.shorthand :: shorthands else shorthands)

/-- Function `validateFlagDuplicates`: duplicate flag names/shorthands in a node. -/
def validateFlagDuplicates (flags : List FlagConfig) (cmdPath : String) : List String :=
  validateFlagDuplicatesGo cmdPath flags [] []

/-- Function `extractCommandName`: first whitespace-delimited token of `use`. -/
def extractCommandName (use : String) : String :=
  if use = "" then ""
  else
    match goFields use with
    | [] => ""
    | p :: _ => p

/-- The sibling-name resolution used for duplicate detection: the
`use`-derived token, falling back to the map key when it is empty. -/
def resolvedCommandName (key : String) (c : CommandConfig) : String :=
  let n := extractCommandName c.use
  if n = "" then key else n

mutual

/-- Function `validateCommandRecursive`: a node's own checks, then its children. -/
def validateCommandRecursive : CommandConfig → String → List String
  | c@(.mk _ _ _ _ _ _ flags cmds _), path =>
    validateCommandConfig c path
    ++ validateFlags flags path
    ++ validateFlagDuplicates flags path
    ++ validateChildren cmds path []

/-- Child loop of `validateCommandRecursive`, carrying the
`subCommandNames` set. -/
def validateChildren : List (String × CommandConfig) → String → List String → List String
  | [], _, _ => []
  | (name, c) :: rest, path, seen =>
    let n := resolvedCommandName name c
    (if n ∈ seen then [dupSubCmdMsg path n] else [])
    ++ validateCommandRecursive c (path ++ "/" ++ name)
    ++ validateChildren rest path (n :: seen)

end

/-- Root-level command loop of `ValidateConfig`, carrying the
`commandNames` set; each child is validated recursively with its map key
as path. -/
def validateRootCommands : List (String × CommandConfig) → List String → List String
  | [], _ => []
  | (name, c) :: rest, seen =>
    let n := resolvedCommandName name c
    (if n ∈ seen then [dupRootCmdMsg n] else [])
    ++ validateCommandRecursive c name
    ++ validateRootCommands rest (n :: seen)

/-- Every violation collected by `ValidateConfig`, in collection order. -/
def validateConfigErrors (config : ToolConfig) : List String :=
  validateToolConfig config
  ++ validateCommandConfig config.root "root"
  ++ validateFlags config.root.flags "root"
  ++ validateFlagDuplicates config.root.flags "root"
  ++ validateRootCommands config.commands []

/-- Function `ValidateConfig`: `none` models Go `nil`; otherwise the aggregate
`*ValidationError` is returned. -/
def ValidateConfig (config : ToolConfig) : Option ValidationError :=
  let e := validateConfigErrors config
  if e.isEmpty then none else some ⟨e⟩

/-! ### Tree builder (`BuildRootCommand`, `buildCommand`, `setArgs`,
`addFlags`) -/

/-- Modelled from the documented semantics of the cobra positional-args
validators that `setArgs` installs (`cobra.NoArgs`, `ArbitraryArgs`,
`ExactArgs`, `MinimumNArgs`, `MaximumNArgs`, `RangeArgs`). -/
inductive PositionalArgs where
  | noArgs
  | arbitraryArgs
  | exactArgs (n : Int)
  | minimumNArgs (n : Int)
  | maximumNArgs (n : Int)
  | rangeArgs (lo hi : Int)
deriving Repr, DecidableEq

/-- Whether the validator accepts an invocation with `n` positional
arguments (`true` = no usage error). -/
def PositionalArgs.accepts : PositionalArgs → Nat → Bool
  | .noArgs, n => n == 0
  | .arbitraryArgs, _ => true
  | .exactArgs k, n => (n : Int) == k
  | .minimumNArgs k, n => k ≤ (n : Int)
  | .maximumNArgs k, n => (n : Int) ≤ k
  | .rangeArgs lo hi, n => lo ≤ (n : Int) && (n : Int) ≤ hi

/-- Function `setArgs`: the validator installed on `cmd.Args` for a given
`ArgsConfig`; `none` models leaving `cmd.Args` nil (no `ArgsConfig`, or a
`type` outside the six cases of the switch). -/
def setArgs : Option ArgsConfig → Option PositionalArgs
  | none => none
  | some args =>
    if args.type = ArgsTypeNone then some .noArgs
    else if args.type = ArgsTypeAny then some .arbitraryArgs
    else if args.type = ArgsTypeExact then some (.exactArgs args.count)
    else if args.type = ArgsTypeMin then some (.minimumNArgs args.min)
    else if args.type = ArgsTypeMax then some (.maximumNArgs args.max)
    else if args.type = ArgsTypeRange then some (.rangeArgs args.min args.max)
    else none

/-- Invocation-time argument-count check of a built command: cobra treats
a nil `Args` field as `ArbitraryArgs` (any count accepted). -/
def cmdAcceptsArgs (v : Option PositionalArgs) (n : Nat) : Bool :=
  match v with
  | none => true
  | some p => p.accepts n

/-- The parsed, typed default value a flag is registered with. -/
inductive FlagDefault where
  | str (s : String)
  | boolean (b : Bool)
  | int (i : Int)
  | strSlice (l : List String)
deriving Repr, DecidableEq

/-- One flag as registered in a pflag flag set. -/
structure BuiltFlag where
  name : String
  shorthand : String
  default : FlagDefault
  usage : String
  required : Bool
  hidden : Bool
deriving Repr, DecidableEq

/-- Message of an unparsable `int` default.  The Go code wraps the
`fmt.Sscanf` error with `%w`; its text for a failed `%d` conversion is
"expected integer". -/
def intDefaultErrMsg (f : FlagConfig) : String :=
  "invalid int default value \"" ++ f.defaultValue ++ "\" for flag " ++ f.name
    ++ ": expected integer"

/-- The type dispatch of `addFlags`: registration of one flag with its
type-specific default parsing ("true" for bool, `Sscanf "%d"` for int, an
empty slice for stringSlice), or the corresponding build error. -/
def parseFlagDefault (flag : FlagConfig) : Except String FlagDefault :=
  if flag.type = "string" then .ok (.str flag.defaultValue)
  else if flag.type = "bool" then .ok (.boolean (flag.defaultValue == "true"))
  else if flag.type = "int" then
    if flag.defaultValue = "" then .ok (.int 0)
    else
      match sscanfInt flag.defaultValue with
      | some v => .ok (.int v)
      | none => .error (intDefaultErrMsg flag)
  else if flag.type = "stringSlice" then .ok (.strSlice [])
  else .error ("unsupported flag type: " ++ flag.type)

/-- Whether a flag set contains a flag of the given name. -/
def containsFlag (fs : List BuiltFlag) (n : String) : Bool :=
  fs.any (fun f => f.name == n)

/-- Set the required annotation on the named flag of a set (pflag
`SetAnnotation` via `MarkFlagRequired`). -/
def markRequired (fs : List BuiltFlag) (n : String) : List BuiltFlag :=
  fs.map (fun f => if f.name == n then { f with required := true } else f)

/-- Mark the named flag of a set hidden (pflag `MarkHidden`). -/
def markHidden (fs : List BuiltFlag) (n : String) : List BuiltFlag :=
  fs.map (fun f => if f.name == n then { f with hidden := true } else f)

/-- Loop of `addFlags` over a node's flag list, accumulating the local
flag set (`cmd.Flags()`) and the persistent set (`cmd.PersistentFlags()`).
Per flag: register it (failing on an unsupported type or a bad int
default), then `cmd.MarkFlagRequired` — which looks the name up in the
local set, per cobra — and then `MarkHidden` on the set the flag was
registered in. -/
def addFlagsGo : List FlagConfig → List BuiltFlag → List BuiltFlag →
    Except String (List BuiltFlag × List BuiltFlag)
  | [], locals, persistents => .ok (locals, persistents)
  | flag :: rest, locals, persistents =>
    match parseFlagDefault flag with
    | .error e => .error e
    | .ok d =>
      let entry : BuiltFlag :=
        { name := flag.name, shorthand := flag.shorthand, default := d,
          usage := flag.usage, required := false, hidden := false }
      let locals1 := if flag.persistent then locals else locals ++ [entry]
      let persistents1 := if flag.persistent then persistents ++ [entry] else persistents
      if flag.required ∧ ¬ containsFlag locals1 flag.name then
        .error ("failed to mark flag " ++ flag.name ++ " as required: no such flag -"
          ++ flag.name)
      else
        let locals2 := if flag.required then markRequired locals1 flag.name else locals1
        let locals3 :=
          if flag.hidden ∧ ¬ flag.persistent then markHidden locals2 flag.name else locals2
        let persistents2 :=
          if flag.hidden ∧ flag.persistent then markHidden persistents1 flag.name
          else persistents1
        addFlagsGo rest locals3 persistents2

/-- Function `addFlags`: register a node's flag list. -/
def addFlags (flags : List FlagConfig) : Except String (List BuiltFlag × List BuiltFlag) :=
  addFlagsGo flags [] []

/-- The dynamic shape of a value in the handler registry: either a
callable of the expected `func(*cobra.Command, []string) error` shape, or
a value of any other type. -/
inductive RegisteredFunc where
  | runE
  | other
deriving Repr, DecidableEq

/-- The handler registry (`CommandBuilder.funcMap`). -/
def FuncMap : Type := List (String × RegisteredFunc)

/-- The `run_func` binding step shared by `BuildRootCommand` and
`buildCommand`: an empty name binds nothing; otherwise the name is looked
up (absence is "not registered") and its dynamic type checked. -/
def bindRunFunc (fm : FuncMap) (runFunc : String) : Except String Bool :=
  if runFunc = "" then .ok false
  else
    match List.lookup runFunc fm with
    | some .runE => .ok true
    | some .other =>
      .error ("function " ++ runFunc
        ++ " is not of type func(*cobra.Command, []string) error")
    | none => .error ("function " ++ runFunc ++ " not registered")

/-- An executable cobra command as assembled by the builder. -/
inductive Cmd where
  | mk : (use : String) → (aliases : List String) → (short : String) → (long : String) →
      (version : String) → (hidden : Bool) → (argsv : Option PositionalArgs) →
      (hasRunE : Bool) → (localFlags : List BuiltFlag) →
      (persistentFlags : List BuiltFlag) → (subcommands : List Cmd) → Cmd
deriving Repr

def Cmd.use : Cmd → String
  | .mk u _ _ _ _ _ _ _ _ _ _ => u

def Cmd.aliases : Cmd → List String
  | .mk _ a _ _ _ _ _ _ _ _ _ => a

def Cmd.short : Cmd → String
  | .mk _ _ s _ _ _ _ _ _ _ _ => s

def Cmd.long : Cmd → String
  | .mk _ _ _ l _ _ _ _ _ _ _ => l

def Cmd.version : Cmd → String
  | .mk _ _ _ _ v _ _ _ _ _ _ => v

def Cmd.hidden : Cmd → Bool
  | .mk _ _ _ _ _ h _ _ _ _ _ => h

def Cmd.argsv : Cmd → Option PositionalArgs
  | .mk _ _ _ _ _ _ a _ _ _ _ => a

def Cmd.hasRunE : Cmd → Bool
  | .mk _ _ _ _ _ _ _ r _ _ _ => r

def Cmd.localFlags : Cmd → List BuiltFlag
  | .mk _ _ _ _ _ _ _ _ f _ _ => f

def Cmd.persistentFlags : Cmd → List BuiltFlag
  | .mk _ _ _ _ _ _ _ _ _ p _ => p

def Cmd.subcommands : Cmd → List Cmd
  | .mk _ _ _ _ _ _ _ _ _ _ s => s

mutual

/-- Function `buildCommand`: one node — the `cobra.Command` literal carrying use,
aliases, short, long and hidden, then `setArgs`, the `run_func` binding,
`addFlags`, and the subcommand loop.  Any error aborts the build. -/
def buildCommand (fm : FuncMap) : CommandConfig → Except String Cmd
  | .mk u al sh lo args rf fl cmds hid =>
    match bindRunFunc fm rf with
    | .error e => .error e
    | .ok hasRun =>
      match addFlags fl with
      | .error e => .error e
      | .ok (lf, pf) =>
        match buildSubcommands fm cmds with
        | .error e => .error e
        | .ok subs => .ok (.mk u al sh lo "" hid (setArgs args) hasRun lf pf subs)

/-- Subcommand loop of `buildCommand`: each child error is wrapped as
`failed to build subcommand <key>: <err>`. -/
def buildSubcommands (fm : FuncMap) : List (String × CommandConfig) → Except String (List Cmd)
  | [] => .ok []
  | (name, c) :: rest =>
    match buildCommand fm c with
    | .error e => .error ("failed to build subcommand " ++ name ++ ": " ++ e)
    | .ok sub =>
      match buildSubcommands fm rest with
      | .error e => .error e
      | .ok subs => .ok (sub :: subs)

end

/-- Root-level subcommand loop of `BuildRootCommand`: each error is
wrapped as `failed to build command <key>: <err>`. -/
def buildRootSubcommands (fm : FuncMap) : List (String × CommandConfig) → Except String (List Cmd)
  | [] => .ok []
  | (name, c) :: rest =>
    match buildCommand fm c with
    | .error e => .error ("failed to build command " ++ name ++ ": " ++ e)
    | .ok sub =>
      match buildRootSubcommands fm rest with
      | .error e => .error e
      | .ok subs => .ok (sub :: subs)

/-- Function `BuildRootCommand`: the root `cobra.Command` literal carries only
`Use`, `Short`, `Long` and `Version` (no aliases, no hidden flag, and no
`setArgs` call for the root), then the root `run_func` binding, the root
flags, and the top-level command loop. -/
def BuildRootCommand (config : ToolConfig) (fm : FuncMap) : Except String Cmd :=
  match bindRunFunc fm config.root.runFunc with
  | .error e => .error e
  | .ok hasRun =>
    match addFlags config.root.flags with
    | .error e => .error e
    | .ok (lf, pf) =>
      match buildRootSubcommands fm config.commands with
      | .error e => .error e
      | .ok subs =>
        .ok (.mk config.root.use [] config.root.short config.root.long
          config.version false none hasRun lf pf subs)

/-! ### Doc generator (`readme_generator.go`) -/

/-- Structure `CommandDoc`: the documentation record of one command node; the
template emits exactly one heading block per `CommandDoc` reached through
`DocsConfig.Commands`/`Subcommands`, and one flag-table row per entry of
its `flags` list. -/
inductive CommandDoc where
  | mk : (name : String) → (use : String) → (short : String) → (long : String) →
      (fullPath : String) → (aliases : List String) → (flags : List FlagConfig) →
      (args : Option ArgsConfig) → (subcommands : List CommandDoc) → (depth : Nat) →
      CommandDoc
deriving Repr

def CommandDoc.name : CommandDoc → String
  | .mk n _ _ _ _ _ _ _ _ _ => n

def CommandDoc.fullPath : CommandDoc → String
  | .mk _ _ _ _ p _ _ _ _ _ => p

def CommandDoc.flags : CommandDoc → List FlagConfig
  | .mk _ _ _ _ _ _ f _ _ _ => f

def CommandDoc.subcommands : CommandDoc → List CommandDoc
  | .mk _ _ _ _ _ _ _ _ s _ => s

/-- Replace a document's full path (the parent's post-recursion fixup of
`subDoc.FullPath`). -/
def CommandDoc.withFullPath : CommandDoc → String → CommandDoc
  | .mk n u sh lo _ al fl ar su de, p => .mk n u sh lo p al fl ar su de

/-- Function `filterVisibleFlags`: only non-hidden flags are documented. -/
def filterVisibleFlags (flags : List FlagConfig) : List FlagConfig :=
  flags.filter (fun f => !f.hidden)

/-- The display name of a documented command: first field of `use`,
falling back to the map key. -/
def docDisplayName (use key : String) : String :=
  match goFields use with
  | [] => key
  | f :: _ => f

mutual

/-- Function `collectCommandDoc`: the doc record of one node.  The Go code sorts
the child keys, skips hidden children, recurses, and then overwrites each
child's `FullPath` with `doc.FullPath + " " + <child use token>`.  Since a
child's document depends only on its own key and config, collecting every
child first (`collectChildDocs`, structural) and then sorting/filtering
the collected triples by key yields the same documents in the same
order. -/
def collectCommandDoc (rootUse : String) : CommandConfig → String → Nat → CommandDoc
  | cmd@(.mk u _ _ _ _ _ _ cmds _), name, depth =>
    let fullPath := rootUse ++ " " ++ u
    let triples := sortByKey (collectChildDocs rootUse cmds (depth + 1))
    let subs := triples.filterMap (fun t =>
      if t.2.1.hidden then none
      else some (t.2.2.withFullPath (fullPath ++ " " ++ docDisplayName t.2.1.use t.1)))
    .mk (docDisplayName u name) u cmd.short cmd.long fullPath cmd.aliases
      (filterVisibleFlags cmd.flags) cmd.args subs depth

/-- Collect `(key, child config, child doc)` for every child, in the
given enumeration order. -/
def collectChildDocs (rootUse : String) :
    List (String × CommandConfig) → Nat → List (String × CommandConfig × CommandDoc)
  | [], _ => []
  | (k, c) :: rest, d =>
    (k, c, collectCommandDoc rootUse c k d) :: collectChildDocs rootUse rest d

end

/-- Structure `DocsConfig`: everything the documentation template renders. -/
structure DocsConfig where
  toolName : String
  toolDescription : String
  version : String
  rootCommand : CommandDoc
  commands : List CommandDoc

/-- Function `collectDocsConfig`: the root section (root flags filtered for
visibility) plus one doc per visible top-level command, enumerated in
sorted key order. -/
def collectDocsConfig (config : ToolConfig) : DocsConfig :=
  { toolName := config.name
    toolDescription := config.description
    version := config.version
    rootCommand := .mk config.root.use config.root.use config.root.short
      config.root.long "" config.root.aliases (filterVisibleFlags config.root.flags)
      config.root.args [] 0
    commands := (sortByKey config.commands).filterMap (fun p =>
      if p.2.hidden then none
      else some (collectCommandDoc config.root.use p.2 p.1 0)) }

mutual

/-- Number of heading blocks a documentation subtree produces: one per
`CommandDoc`. -/
def docCount : CommandDoc → Nat
  | .mk _ _ _ _ _ _ _ _ subs _ => 1 + docCountList subs

def docCountList : List CommandDoc → Nat
  | [] => 0
  | d :: rest => docCount d + docCountList rest

end

mutual

/-- Every flag row of a documentation subtree belongs to a non-hidden
flag. -/
def docFlagsVisible : CommandDoc → Bool
  | .mk _ _ _ _ _ _ flags _ subs _ =>
    flags.all (fun f => !f.hidden) && docFlagsVisibleList subs

def docFlagsVisibleList : List CommandDoc → Bool
  | [] => true
  | d :: rest => docFlagsVisible d && docFlagsVisibleList rest

end

mutual

/-- Number of config nodes that are visible and reachable from a visible
node through visible ancestors (the nodes the doc generator must give a
heading). -/
def visibleCount : CommandConfig → Nat
  | .mk _ _ _ _ _ _ _ cmds _ => 1 + visibleCountChildren cmds

def visibleCountChildren : List (String × CommandConfig) → Nat
  | [] => 0
  | (_, c) :: rest => (if c.hidden then 0 else visibleCount c) + visibleCountChildren rest

end

/-! ### Helper lemmas -/

/-- Field correspondence of a successfully built (non-root) command. -/
theorem buildCommand_ok_fields (fm : FuncMap) (cfg : CommandConfig) (cmd : Cmd)
    (h : buildCommand fm cfg = Except.ok cmd) :
    cmd.use = cfg.use ∧ cmd.aliases = cfg.aliases ∧ cmd.short = cfg.short
    ∧ cmd.long = cfg.long ∧ cmd.version = "" ∧ cmd.hidden = cfg.hidden
    ∧ cmd.argsv = setArgs cfg.args
    ∧ buildSubcommands fm cfg.commands = Except.ok cmd.subcommands := by
  obtain ⟨u, al, sh, lo, args, rf, fl, cmds, hid⟩ := cfg
  simp only [buildCommand] at h
  split at h
  · exact absurd h (by simp)
  · split at h
    · exact absurd h (by simp)
    · split at h
      · exact absurd h (by simp)
      · injection h with h2
        subst h2
        refine ⟨rfl, rfl, rfl, rfl, rfl, rfl, rfl, ?_⟩
        simp only [CommandConfig.commands, Cmd.subcommands]
        assumption

/-- The subcommand loop succeeds exactly by building each child in
enumeration order. -/
theorem buildSubcommands_forall₂ (fm : FuncMap) (l : List (String × CommandConfig))
    (subs : List Cmd) (h : buildSubcommands fm l = Except.ok subs) :
    List.Forall₂ (fun p sc => buildCommand fm p.2 = Except.ok sc) l subs := by
  induction l generalizing subs with
  | nil =>
    simp only [buildSubcommands] at h
    injection h with h2
    subst h2
    exact List.Forall₂.nil
  | cons p rest ih =>
    obtain ⟨k, c⟩ := p
    simp only [buildSubcommands] at h
    split at h
    · exact absurd h (by simp)
    · split at h
      · exact absurd h (by simp)
      · injection h with h2
        subst h2
        exact List.Forall₂.cons (by assumption) (ih _ (by assumption))

/-- The root-level command loop succeeds exactly by building each child in
enumeration order. -/
theorem buildRootSubcommands_forall₂ (fm : FuncMap) (l : List (String × CommandConfig))
    (subs : List Cmd) (h : buildRootSubcommands fm l = Except.ok subs) :
    List.Forall₂ (fun p sc => buildCommand fm p.2 = Except.ok sc) l subs := by
  induction l generalizing subs with
  | nil =>
    simp only [buildRootSubcommands] at h
    injection h with h2
    subst h2
    exact List.Forall₂.nil
  | cons p rest ih =>
    obtain ⟨k, c⟩ := p
    simp only [buildRootSubcommands] at h
    split at h
    · exact absurd h (by simp)
    · split at h
      · exact absurd h (by simp)
      · injection h with h2
        subst h2
        exact List.Forall₂.cons (by assumption) (ih _ (by assumption))

/-- Field correspondence of a successfully built root command. -/
theorem buildRoot_ok_fields (tc : ToolConfig) (fm : FuncMap) (cmd : Cmd)
    (h : BuildRootCommand tc fm = Except.ok cmd) :
    cmd.use = tc.root.use ∧ cmd.short = tc.root.short ∧ cmd.long = tc.root.long
    ∧ cmd.version = tc.version ∧ cmd.aliases = [] ∧ cmd.hidden = false
    ∧ cmd.argsv = none
    ∧ buildRootSubcommands fm tc.commands = Except.ok cmd.subcommands := by
  simp only [BuildRootCommand] at h
  split at h
  · exact absurd h (by simp)
  · split at h
    · exact absurd h (by simp)
    · split at h
      · exact absurd h (by simp)
      · injection h with h2
        subst h2
        exact ⟨rfl, rfl, rfl, rfl, rfl, rfl, rfl, by simpa [Cmd.subcommands] using (by assumption : buildRootSubcommands fm tc.commands = Except.ok _)⟩

/-! ### Claim theorems -/

/-- C1 amended: for every descendant command — those built by
`buildCommand` — invocation-time argument-count checking follows the
declared `ArgsConfig.type` exactly: `none` accepts exactly 0 arguments,
`any` any number, `exact` exactly `count`, `min` at least `min`, `max`
at most `max`, `range` between `min` and `max` inclusive; a node without
`ArgsConfig` accepts any number of arguments, the boundary counts
succeed, and one below `min` or one above `max` fails.  Every command
built by `buildCommand` carries exactly the validator `setArgs` derives
from its node's `ArgsConfig`; the root command built by
`BuildRootCommand`, however, carries no validator at all and accepts any
number of arguments regardless of the root node's `ArgsConfig`. -/
theorem args_arity_semantics (a : ArgsConfig) (n : Nat) :
    cmdAcceptsArgs (setArgs none) n = true
  ∧ (a.type = "none" → (cmdAcceptsArgs (setArgs (some a)) n = true ↔ n = 0))
  ∧ (a.type = "any" → cmdAcceptsArgs (setArgs (some a)) n = true)
  ∧ (a.type = "exact" → (cmdAcceptsArgs (setArgs (some a)) n = true ↔ (n : Int) = a.count))
  ∧ (a.type = "min" → (cmdAcceptsArgs (setArgs (some a)) n = true ↔ a.min ≤ (n : Int)))
  ∧ (a.type = "max" → (cmdAcceptsArgs (setArgs (some a)) n = true ↔ (n : Int) ≤ a.max))
  ∧ (a.type = "range" →
      (cmdAcceptsArgs (setArgs (some a)) n = true ↔ a.min ≤ (n : Int) ∧ (n : Int) ≤ a.max))
  ∧ (a.type = "exact" → 1 ≤ a.count →
      cmdAcceptsArgs (setArgs (some a)) a.count.toNat = true
      ∧ cmdAcceptsArgs (setArgs (some a)) (a.count.toNat - 1) = false
      ∧ cmdAcceptsArgs (setArgs (some a)) (a.count.toNat + 1) = false)
  ∧ (a.type = "min" → 0 ≤ a.min →
      cmdAcceptsArgs (setArgs (some a)) a.min.toNat = true
      ∧ (1 ≤ a.min → cmdAcceptsArgs (setArgs (some a)) (a.min.toNat - 1) = false))
  ∧ (a.type = "max" → 1 ≤ a.max →
      cmdAcceptsArgs (setArgs (some a)) a.max.toNat = true
      ∧ cmdAcceptsArgs (setArgs (some a)) (a.max.toNat + 1) = false)
  ∧ (a.type = "range" → 0 ≤ a.min → a.min ≤ a.max →
      cmdAcceptsArgs (setArgs (some a)) a.min.toNat = true
      ∧ cmdAcceptsArgs (setArgs (some a)) a.max.toNat = true
      ∧ cmdAcceptsArgs (setArgs (some a)) (a.max.toNat + 1) = false
      ∧ (1 ≤ a.min → cmdAcceptsArgs (setArgs (some a)) (a.min.toNat - 1) = false))
  ∧ (∀ fm cfg cmd, buildCommand fm cfg = Except.ok cmd → cmd.argsv = setArgs cfg.args)
  ∧ (∀ tc fm cmd, BuildRootCommand tc fm = Except.ok cmd →
      cmd.argsv = none ∧ ∀ m, cmdAcceptsArgs cmd.argsv m = true) := by
  refine ⟨by simp [cmdAcceptsArgs, setArgs], ?_, ?_, ?_, ?_, ?_, ?_, ?_, ?_, ?_, ?_, ?_, ?_⟩
  · intro ht
    simp [setArgs, ht, ArgsTypeNone, ArgsTypeAny, cmdAcceptsArgs, PositionalArgs.accepts]
  · intro ht
    simp [setArgs, ht, ArgsTypeNone, ArgsTypeAny, cmdAcceptsArgs, PositionalArgs.accepts]
  · intro ht
    simp [setArgs, ht, ArgsTypeNone, ArgsTypeAny, ArgsTypeExact, cmdAcceptsArgs,
      PositionalArgs.accepts]
  · intro ht
    simp [setArgs, ht, ArgsTypeNone, ArgsTypeAny, ArgsTypeExact, ArgsTypeMin,
      cmdAcceptsArgs, PositionalArgs.accepts]
  · intro ht
    simp [setArgs, ht, ArgsTypeNone, ArgsTypeAny, ArgsTypeExact, ArgsTypeMin,
      ArgsTypeMax, cmdAcceptsArgs, PositionalArgs.accepts]
  · intro ht
    simp [setArgs, ht, ArgsTypeNone, ArgsTypeAny, ArgsTypeExact, ArgsTypeMin,
      ArgsTypeMax, ArgsTypeRange, cmdAcceptsArgs, PositionalArgs.accepts]
  · intro ht hc
    simp [setArgs, ht, ArgsTypeNone, ArgsTypeAny, ArgsTypeExact, cmdAcceptsArgs,
      PositionalArgs.accepts]
    omega
  · intro ht h0
    simp [setArgs, ht, ArgsTypeNone, ArgsTypeAny, ArgsTypeExact, ArgsTypeMin,
      cmdAcceptsArgs, PositionalArgs.accepts]
    omega
  · intro ht h1
    simp [setArgs, ht, ArgsTypeNone, ArgsTypeAny, ArgsTypeExact, ArgsTypeMin,
      ArgsTypeMax, cmdAcceptsArgs, PositionalArgs.accepts]
    omega
  · intro ht h0 h1
    simp [setArgs, ht, ArgsTypeNone, ArgsTypeAny, ArgsTypeExact, ArgsTypeMin,
      ArgsTypeMax, ArgsTypeRange, cmdAcceptsArgs, PositionalArgs.accepts]
    omega
  · intro fm cfg cmd h
    exact (buildCommand_ok_fields fm cfg cmd h).2.2.2.2.2.2.1
  · intro tc fm cmd h
    have h7 := (buildRoot_ok_fields tc fm cmd h).2.2.2.2.2.2.1
    exact ⟨h7, fun m => by rw [h7]; rfl⟩

/-- Witness for the amended C1 at `range {min := 1, max := 3}`: the
boundary counts 1 and 3 are accepted, 0 and 4 are rejected. -/
theorem args_arity_semantics_witness :
    cmdAcceptsArgs (setArgs (some ⟨"range", 0, 1, 3⟩)) 1 = true
  ∧ cmdAcceptsArgs (setArgs (some ⟨"range", 0, 1, 3⟩)) 3 = true
  ∧ cmdAcceptsArgs (setArgs (some ⟨"range", 0, 1, 3⟩)) 4 = false
  ∧ cmdAcceptsArgs (setArgs (some ⟨"range", 0, 1, 3⟩)) 0 = false := by
  obtain ⟨-, -, -, -, -, -, -, -, -, -, hb, -, -⟩ :=
    args_arity_semantics ⟨"range", 0, 1, 3⟩ 0
  obtain ⟨h1, h3, h4, h0⟩ := hb rfl (by decide) (by decide)
  exact ⟨h1, h3, h4, h0 (by decide)⟩

/-- A schema-valid configuration whose root declares the arity policy
`none` (exactly zero arguments). -/
def tcRootNoneArgs : ToolConfig :=
  { name := "t", description := "", version := ""
    root := .mk "t" [] "s" "" (some ⟨"none", 0, 0, 0⟩) "" [] [] false
    commands := [] }

/-- C1 counterexample: `tcRootNoneArgs` passes validation, its root
declares arity type `none` — which must accept exactly 0 positional
arguments — yet the root command built from this validated config
carries no validator at all and accepts 2 arguments at invocation time,
while the validator `setArgs` would derive from the root node's
`ArgsConfig` rejects them: the claim fails for the root command. -/
theorem root_arity_unenforced_cex :
    ValidateConfig tcRootNoneArgs = none
  ∧ BuildRootCommand tcRootNoneArgs []
      = Except.ok (Cmd.mk "t" [] "s" "" "" false none false [] [] [])
  ∧ tcRootNoneArgs.root.args = some ⟨"none", 0, 0, 0⟩
  ∧ cmdAcceptsArgs (Cmd.mk "t" [] "s" "" "" false none false [] [] []).argsv 2 = true
  ∧ cmdAcceptsArgs (setArgs tcRootNoneArgs.root.args) 2 = false :=
  ⟨rfl, rfl, rfl, rfl, by decide⟩

/-- A configuration whose root node declares aliases, hidden and an
`ArgsConfig` of type `none`. -/
def tcRootExtras : ToolConfig :=
  { name := "t", description := "", version := "1.0"
    root := .mk "t" ["alias1"] "s" "" (some ⟨"none", 0, 0, 0⟩) "" [] [] true
    commands := [] }

/-- C3 counterexample: the root command built from `tcRootExtras` does
not carry the root node's aliases or hidden flag, and no argument-count
enforcement is attached to it — two positional arguments are accepted at
invocation time although the root node's `ArgsConfig` (type `none`)
demands zero.  The claim fails for the root node. -/
theorem build_root_fields_cex :
    BuildRootCommand tcRootExtras []
        = Except.ok (Cmd.mk "t" [] "s" "" "1.0" false none false [] [] [])
  ∧ tcRootExtras.root.aliases = ["alias1"]
  ∧ tcRootExtras.root.hidden = true
  ∧ tcRootExtras.root.args = some ⟨"none", 0, 0, 0⟩
  ∧ cmdAcceptsArgs (setArgs tcRootExtras.root.args) 2 = false
  ∧ cmdAcceptsArgs none 2 = true :=
  ⟨rfl, rfl, rfl, rfl, by decide, rfl⟩

/-- C3 amended: every descendant node's built command carries that node's
use-string, aliases, short/long text and hidden flag, and has the
argument-count enforcement derived from its `ArgsConfig` attached; the
root command carries the root node's use-string and short/long text (plus
the tool version) but no aliases, no hidden flag and no argument-count
enforcement, regardless of the root node's `ArgsConfig`. -/
theorem build_carries_node_fields :
    (∀ fm cfg cmd, buildCommand fm cfg = Except.ok cmd →
      cmd.use = cfg.use ∧ cmd.aliases = cfg.aliases ∧ cmd.short = cfg.short
      ∧ cmd.long = cfg.long ∧ cmd.hidden = cfg.hidden
      ∧ cmd.argsv = setArgs cfg.args
      ∧ List.Forall₂ (fun p sc => buildCommand fm p.2 = Except.ok sc)
          cfg.commands cmd.subcommands)
  ∧ (∀ tc fm cmd, BuildRootCommand tc fm = Except.ok cmd →
      cmd.use = tc.root.use ∧ cmd.short = tc.root.short ∧ cmd.long = tc.root.long
      ∧ cmd.version = tc.version ∧ cmd.aliases = [] ∧ cmd.hidden = false
      ∧ cmd.argsv = none
      ∧ List.Forall₂ (fun p sc => buildCommand fm p.2 = Except.ok sc)
          tc.commands cmd.subcommands) := by
  constructor
  · intro fm cfg cmd h
    obtain ⟨h1, h2, h3, h4, _, h6, h7, h8⟩ := buildCommand_ok_fields fm cfg cmd h
    exact ⟨h1, h2, h3, h4, h6, h7, buildSubcommands_forall₂ fm _ _ h8⟩
  · intro tc fm cmd h
    obtain ⟨h1, h2, h3, h4, h5, h6, h7, h8⟩ := buildRoot_ok_fields tc fm cmd h
    exact ⟨h1, h2, h3, h4, h5, h6, h7, buildRootSubcommands_forall₂ fm _ _ h8⟩

/-- Witness for the amended C3 on a one-child configuration: the child
command carries use, aliases, short, long, hidden and the `exact 1`
validator of its node. -/
theorem build_carries_node_fields_witness :
    buildCommand [] (.mk "add <n>" ["a"] "Add" "L" (some ⟨"exact", 1, 0, 0⟩) "" [] [] true)
      = Except.ok (Cmd.mk "add <n>" ["a"] "Add" "L" "" true
          (some (.exactArgs 1)) false [] [] [])
  ∧ (Cmd.mk "add <n>" ["a"] "Add" "L" "" true (some (.exactArgs 1)) false [] [] []).aliases
      = (CommandConfig.mk "add <n>" ["a"] "Add" "L" (some ⟨"exact", 1, 0, 0⟩) "" [] [] true).aliases
  ∧ (Cmd.mk "add <n>" ["a"] "Add" "L" "" true (some (.exactArgs 1)) false [] [] []).hidden
      = (CommandConfig.mk "add <n>" ["a"] "Add" "L" (some ⟨"exact", 1, 0, 0⟩) "" [] [] true).hidden := by
  have h : buildCommand [] (.mk "add <n>" ["a"] "Add" "L" (some ⟨"exact", 1, 0, 0⟩) "" [] [] true)
      = Except.ok (Cmd.mk "add <n>" ["a"] "Add" "L" "" true
          (some (.exactArgs 1)) false [] [] []) := rfl
  obtain ⟨-, h2, -, -, h5, -, -⟩ := build_carries_node_fields.1 _ _ _ h
  exact ⟨h, h2, h5⟩

/-- C6: for a node with a non-empty `run_func`, building fails with a
"not registered" error when the name is absent from the handler registry,
and with a type-mismatch error when the registered value is not a
callable of the expected shape; the same holds for the root node in
`BuildRootCommand`.  In all cases an error — not a command tree — is
returned. -/
theorem runfunc_binding_errors (fm : FuncMap) (cfg : CommandConfig) (tc : ToolConfig) :
    (cfg.runFunc ≠ "" → List.lookup cfg.runFunc fm = none →
      buildCommand fm cfg = Except.error ("function " ++ cfg.runFunc ++ " not registered"))
  ∧ (cfg.runFunc ≠ "" → List.lookup cfg.runFunc fm = some .other →
      buildCommand fm cfg = Except.error ("function " ++ cfg.runFunc
        ++ " is not of type func(*cobra.Command, []string) error"))
  ∧ (tc.root.runFunc ≠ "" → List.lookup tc.root.runFunc fm = none →
      BuildRootCommand tc fm
        = Except.error ("function " ++ tc.root.runFunc ++ " not registered"))
  ∧ (tc.root.runFunc ≠ "" → List.lookup tc.root.runFunc fm = some .other →
      BuildRootCommand tc fm = Except.error ("function " ++ tc.root.runFunc
        ++ " is not of type func(*cobra.Command, []string) error")) := by
  refine ⟨?_, ?_, ?_, ?_⟩
  · intro hne hl
    obtain ⟨u, al, sh, lo, args, rf, fl, cmds, hid⟩ := cfg
    simp only [CommandConfig.runFunc] at hne hl ⊢
    simp [buildCommand, bindRunFunc, hne, hl]
  · intro hne hl
    obtain ⟨u, al, sh, lo, args, rf, fl, cmds, hid⟩ := cfg
    simp only [CommandConfig.runFunc] at hne hl ⊢
    simp [buildCommand, bindRunFunc, hne, hl]
  · intro hne hl
    simp [BuildRootCommand, bindRunFunc, hne, hl]
  · intro hne hl
    simp [BuildRootCommand, bindRunFunc, hne, hl]

/-- Witness for C6: a lookup miss and a shape mismatch on concrete
configurations. -/
theorem runfunc_binding_errors_witness :
    buildCommand [("g", .runE)] (.mk "x" [] "s" "" none "runX" [] [] false)
      = Except.error "function runX not registered"
  ∧ buildCommand [("runX", .other)] (.mk "x" [] "s" "" none "runX" [] [] false)
      = Except.error
          "function runX is not of type func(*cobra.Command, []string) error" := by
  constructor
  · exact (runfunc_binding_errors [("g", .runE)]
      (.mk "x" [] "s" "" none "runX" [] [] false)
      ⟨"", "", "", .mk "" [] "" "" none "" [] [] false, []⟩).1 (by decide) (by rfl)
  · exact (runfunc_binding_errors [("runX", .other)]
      (.mk "x" [] "s" "" none "runX" [] [] false)
      ⟨"", "", "", .mk "" [] "" "" none "" [] [] false, []⟩).2.1 (by decide) (by rfl)

/-- C7: flag defaults are parsed per the declared type — a bool default
is true exactly for the literal "true"; an int default parses as base-10
via `Sscanf` semantics, an empty int default is 0, and a default that
does not scan as an integer makes the whole flag registration (and hence
the build) fail with a descriptive error naming the flag; a stringSlice
flag gets an empty sequence as default. -/
theorem flag_default_parsing (f : FlagConfig) (flags : List FlagConfig) (e : String) :
    (f.type = "bool" → parseFlagDefault f = .ok (.boolean (f.defaultValue == "true")))
  ∧ (f.type = "bool" → f.defaultValue ≠ "true" →
      parseFlagDefault f = .ok (.boolean false))
  ∧ (f.type = "int" → f.defaultValue = "" → parseFlagDefault f = .ok (.int 0))
  ∧ (f.type = "int" → f.defaultValue ≠ "" → ∀ v, sscanfInt f.defaultValue = some v →
      parseFlagDefault f = .ok (.int v))
  ∧ (f.type = "int" → f.defaultValue ≠ "" → sscanfInt f.defaultValue = none →
      parseFlagDefault f = .error (intDefaultErrMsg f))
  ∧ (f.type = "stringSlice" → parseFlagDefault f = .ok (.strSlice []))
  ∧ (f ∈ flags → parseFlagDefault f = .error e →
      ∃ e2, addFlags flags = Except.error e2) := by
  refine ⟨?_, ?_, ?_, ?_, ?_, ?_, ?_⟩
  · intro ht
    simp [parseFlagDefault, ht]
  · intro ht hv
    simp [parseFlagDefault, ht, hv]
  · intro ht hv
    simp [parseFlagDefault, ht, hv]
  · intro ht hv v hs
    simp [parseFlagDefault, ht, hv, hs]
  · intro ht hv hs
    simp [parseFlagDefault, ht, hv, hs]
  · intro ht
    simp [parseFlagDefault, ht]
  · intro hmem herr
    have go : ∀ (fs : List FlagConfig) (ls ps : List BuiltFlag) (r : List BuiltFlag × List BuiltFlag),
        addFlagsGo fs ls ps = Except.ok r → ∀ g ∈ fs, ∃ d, parseFlagDefault g = Except.ok d := by
      intro fs
      induction fs with
      | nil =>
        intro ls ps r h g hg
        exact absurd hg (List.not_mem_nil g)
      | cons g0 rest ih =>
        intro ls ps r h g hg
        simp only [addFlagsGo] at h
        rcases List.mem_cons.mp hg with hgg | hr
        · subst hgg
          split at h
          · exact absurd h (by simp)
          · rename_i d hpg
            exact ⟨d, hpg⟩
        · split at h
          · exact absurd h (by simp)
          · try split at h
            all_goals try split at h
            all_goals try split at h
            all_goals try split at h
            all_goals try split at h
            all_goals first
              | exact ih _ _ _ h g hr
              | exact absurd h (by simp)
    cases ha : addFlags flags with
    | error e2 => exact ⟨e2, rfl⟩
    | ok r =>
      obtain ⟨d, hd⟩ := go flags [] [] r ha f hmem
      rw [herr] at hd
      exact absurd hd (by simp)

/-- Witness for C7: concrete bool/int/stringSlice defaults, including the
failing non-numeric int default "abc". -/
theorem flag_default_parsing_witness :
    parseFlagDefault ⟨"force", "", "bool", "true", "u", false, false, false⟩
      = .ok (.boolean true)
  ∧ parseFlagDefault ⟨"force", "", "bool", "yes", "u", false, false, false⟩
      = .ok (.boolean false)
  ∧ parseFlagDefault ⟨"n", "", "int", "42", "u", false, false, false⟩ = .ok (.int 42)
  ∧ parseFlagDefault ⟨"n", "", "int", "abc", "u", false, false, false⟩
      = .error (intDefaultErrMsg ⟨"n", "", "int", "abc", "u", false, false, false⟩)
  ∧ parseFlagDefault ⟨"tags", "", "stringSlice", "", "u", false, false, false⟩
      = .ok (.strSlice [])
  ∧ ∃ e2, addFlags [⟨"n", "", "int", "abc", "u", false, false, false⟩]
      = Except.error e2 := by
  have h := flag_default_parsing ⟨"n", "", "int", "abc", "u", false, false, false⟩
    [⟨"n", "", "int", "abc", "u", false, false, false⟩]
    (intDefaultErrMsg ⟨"n", "", "int", "abc", "u", false, false, false⟩)
  refine ⟨?_, ?_, ?_, ?_, ?_, ?_⟩
  · exact (flag_default_parsing ⟨"force", "", "bool", "true", "u", false, false, false⟩
      [] "").1 rfl
  · exact (flag_default_parsing ⟨"force", "", "bool", "yes", "u", false, false, false⟩
      [] "").2.1 rfl (by decide)
  · exact (flag_default_parsing ⟨"n", "", "int", "42", "u", false, false, false⟩
      [] "").2.2.2.1 rfl (by decide) 42 (by decide)
  · exact h.2.2.2.2.1 rfl (by decide) (by decide)
  · exact (flag_default_parsing ⟨"tags", "", "stringSlice", "", "u", false, false, false⟩
      [] "").2.2.2.2.2.1 rfl
  · exact h.2.2.2.2.2.2 (by simp) (h.2.2.2.2.1 rfl (by decide) (by decide))

/-- A configuration that is schema-valid but declares a root flag of the
unsupported type "float". -/
def tcFloatFlag : ToolConfig :=
  { name := "t", description := "", version := ""
    root := .mk "t" [] "s" "" none ""
      [⟨"limit", "", "float", "", "Limit", false, false, false⟩] [] false
    commands := [] }

/-- C10: the validator checks only that a flag's `type` field is
non-empty, never its membership in the supported set, so a flag with a
non-empty unsupported type (such as "float") passes `ValidateConfig`
without a violation and is first rejected by `BuildRootCommand` with an
"unsupported flag type" error. -/
theorem flag_type_checked_at_build (f : FlagConfig) (p : String)
    (hname : f.name ≠ "") (htype : f.type ≠ "") (husage : f.usage ≠ "")
    (hunsupported : f.type ∉ SupportedFlagTypes) :
    validateFlags [f] p = []
  ∧ validateFlagDuplicates [f] p = []
  ∧ parseFlagDefault f = Except.error ("unsupported flag type: " ++ f.type)
  ∧ ValidateConfig tcFloatFlag = none
  ∧ BuildRootCommand tcFloatFlag [] = Except.error "unsupported flag type: float" := by
  simp only [SupportedFlagTypes, List.mem_cons, List.not_mem_nil, or_false] at hunsupported
  push_neg at hunsupported
  obtain ⟨h1, h2, h3, h4⟩ := hunsupported
  refine ⟨?_, ?_, ?_, by rfl, by rfl⟩
  · simp [validateFlags, hname, htype, husage]
  · simp [validateFlagDuplicates, validateFlagDuplicatesGo]
  · simp [parseFlagDefault, h1, h2, h3, h4]

/-- Witness for C10 at the "float" flag of `tcFloatFlag`. -/
theorem flag_type_checked_at_build_witness :
    validateFlags [⟨"limit", "", "float", "", "Limit", false, false, false⟩] "root" = []
  ∧ parseFlagDefault ⟨"limit", "", "float", "", "Limit", false, false, false⟩
      = Except.error "unsupported flag type: float"
  ∧ ValidateConfig tcFloatFlag = none
  ∧ BuildRootCommand tcFloatFlag [] = Except.error "unsupported flag type: float" := by
  obtain ⟨w1, -, w3, w4, w5⟩ := flag_type_checked_at_build
    ⟨"limit", "", "float", "", "Limit", false, false, false⟩ "root"
    (by decide) (by decide) (by decide) (by decide)
  exact ⟨w1, w3, w4, w5⟩

/-- C2: `ValidateConfig` returns nil exactly when no violation is
collected; otherwise it returns the single aggregate `ValidationError`
holding every collected violation (one pass, never stopping at the
first), whose message is the count header followed by one bulleted line
per violation. -/
theorem validateConfig_aggregates (c : ToolConfig) :
    (ValidateConfig c = none ↔ validateConfigErrors c = [])
  ∧ (∀ ve, ValidateConfig c = some ve →
      ve.errors = validateConfigErrors c
      ∧ ve.Error = "validation failed with " ++ toString (validateConfigErrors c).length
          ++ " error(s):\n"
          ++ String.join ((validateConfigErrors c).map (fun e => "  - " ++ e ++ "\n"))) := by
  constructor
  · constructor
    · intro h
      by_cases he : (validateConfigErrors c).isEmpty
      · exact List.isEmpty_iff.mp he
      · simp [ValidateConfig, he] at h
    · intro h
      simp [ValidateConfig, h]
  · intro ve h
    by_cases he : (validateConfigErrors c).isEmpty
    · simp [ValidateConfig, he] at h
    · simp only [ValidateConfig, he, if_false] at h
      injection h with h2
      subst h2
      refine ⟨rfl, ?_⟩
      simp [ValidationError.Error, he]

/-- Witness for C2 on a config with three violations (missing tool name,
missing root use, missing root short): all three are aggregated into one
report. -/
theorem validateConfig_aggregates_witness :
    ValidateConfig ⟨"", "", "", .mk "" [] "" "" none "" [] [] false, []⟩
      = some ⟨["tool config: name is required",
          cmdMsg "root" "use is required",
          cmdMsg "root" "short description is required"]⟩
  ∧ (validateConfigErrors ⟨"", "", "", .mk "" [] "" "" none "" [] [] false, []⟩).length = 3
  ∧ (ValidationError.mk ["tool config: name is required",
        cmdMsg "root" "use is required",
        cmdMsg "root" "short description is required"]).Error
      = "validation failed with 3 error(s):\n"
        ++ "  - tool config: name is required\n"
        ++ "  - command \"root\": use is required\n"
        ++ "  - command \"root\": short description is required\n" := by
  have h : ValidateConfig ⟨"", "", "", .mk "" [] "" "" none "" [] [] false, []⟩
      = some ⟨["tool config: name is required",
          cmdMsg "root" "use is required",
          cmdMsg "root" "short description is required"]⟩ := by rfl
  obtain ⟨-, h2⟩ := (validateConfig_aggregates
    ⟨"", "", "", .mk "" [] "" "" none "" [] [] false, []⟩).2 _ h
  refine ⟨h, by rfl, ?_⟩
  rw [h2]
  rfl

/-- Totality of the character-list order. -/
theorem charListLe_total (a b : List Char) (h : charListLe a b = false) :
    charListLe b a = true := by
  induction a generalizing b with
  | nil => simp [charListLe] at h
  | cons x xs ih =>
    cases b with
    | nil => simp [charListLe]
    | cons y ys =>
      simp only [charListLe] at h ⊢
      split at h
      · exact absurd h (by simp)
      · split at h
        · simp_all
        · have := ih ys h
          simp_all

/-- Transitivity of the character-list order. -/
theorem charListLe_trans (a b c : List Char) (hab : charListLe a b = true)
    (hbc : charListLe b c = true) : charListLe a c = true := by
  induction a generalizing b c with
  | nil => simp [charListLe]
  | cons x xs ih =>
    cases b with
    | nil => simp [charListLe] at hab
    | cons y ys =>
      cases c with
      | nil => simp [charListLe] at hbc
      | cons z zs =>
        simp only [charListLe] at hab hbc ⊢
        split at hab
        · rename_i h1
          split at hbc
          · rename_i h2
            have hxz : x.toNat < z.toNat := by omega
            simp [hxz]
          · rename_i h2
            split at hbc
            · exact absurd hbc (by simp)
            · rename_i h3
              have hxz : x.toNat < z.toNat := by omega
              simp [hxz]
        · rename_i h1
          split at hab
          · exact absurd hab (by simp)
          · rename_i h2
            split at hbc
            · rename_i h3
              have hxz : x.toNat < z.toNat := by omega
              simp [hxz]
            · rename_i h3
              split at hbc
              · exact absurd hbc (by simp)
              · rename_i h4
                have hnx : ¬ x.toNat < z.toNat := by omega
                have hnz : ¬ z.toNat < x.toNat := by omega
                simp only [hnx, hnz, if_false]
                exact ih ys zs hab hbc

/-- Totality of `strLe`. -/
theorem strLe_total (a b : String) (h : strLe a b = false) : strLe b a = true :=
  charListLe_total a.data b.data h

/-- Transitivity of `strLe`. -/
theorem strLe_trans (a b c : String) (hab : strLe a b = true) (hbc : strLe b c = true) :
    strLe a c = true :=
  charListLe_trans a.data b.data c.data hab hbc

/-- Membership after insertion. -/
theorem mem_insertByKey {α : Type} (p x : String × α) (l : List (String × α))
    (h : x ∈ insertByKey p l) : x = p ∨ x ∈ l := by
  induction l with
  | nil => simpa [insertByKey] using h
  | cons q rest ih =>
    simp only [insertByKey] at h
    split at h
    · rcases List.mem_cons.mp h with h1 | h1
      · exact Or.inl h1
      · exact Or.inr h1
    · rcases List.mem_cons.mp h with h1 | h1
      · exact Or.inr (by rw [h1]; exact List.mem_cons_self q rest)
      · rcases ih h1 with h2 | h2
        · exact Or.inl h2
        · exact Or.inr (List.mem_cons_of_mem q h2)

/-- Inserting into a key-sorted list keeps it key-sorted. -/
theorem pairwise_insertByKey {α : Type} (p : String × α) (l : List (String × α))
    (h : List.Pairwise (fun x y => strLe x.1 y.1 = true) l) :
    List.Pairwise (fun x y => strLe x.1 y.1 = true) (insertByKey p l) := by
  induction l with
  | nil => simp [insertByKey]
  | cons q rest ih =>
    simp only [insertByKey]
    split
    · rename_i hle
      refine List.Pairwise.cons ?_ h
      intro x hx
      rcases List.mem_cons.mp hx with h1 | h1
      · rw [h1]
        exact hle
      · exact strLe_trans _ _ _ hle ((List.pairwise_cons.mp h).1 x h1)
    · rename_i hgt
      have hq := strLe_total _ _ (by simpa using hgt)
      obtain ⟨hq1, hq2⟩ := List.pairwise_cons.mp h
      refine List.Pairwise.cons ?_ (ih hq2)
      intro x hx
      rcases mem_insertByKey p x _ hx with h1 | h1
      · rw [h1]
        exact hq
      · exact hq1 x h1

/-- The key sort produces a key-sorted list. -/
theorem pairwise_sortByKey {α : Type} (l : List (String × α)) :
    List.Pairwise (fun x y => strLe x.1 y.1 = true) (sortByKey l) := by
  induction l with
  | nil => simp [sortByKey]
  | cons p rest ih => exact pairwise_insertByKey p _ ih

/-- A configuration whose top-level command map iterates as "b" before
"a" (an order Go's map range is free to produce). -/
def tcUnsorted : ToolConfig :=
  { name := "t", description := "", version := ""
    root := .mk "t" [] "s" "" none "" [] [] false
    commands := [("b", .mk "bcmd" [] "s" "" none "" [] [] false),
                 ("a", .mk "acmd" [] "s" "" none "" [] [] false)] }

/-- C4 counterexample: the tree builder enumerates the commands mapping
in map-iteration order, not sorted key order — under the iteration order
"b", "a" the built subcommands come out as `bcmd` before `acmd`, an
unsorted enumeration — while the docs collector of the very same config
enumerates sorted ("acmd" then "bcmd").  The claim fails for building. -/
theorem build_enumeration_unsorted_cex :
    BuildRootCommand tcUnsorted []
      = Except.ok (Cmd.mk "t" [] "s" "" "" false none false [] []
          [Cmd.mk "bcmd" [] "s" "" "" false none false [] [] [],
           Cmd.mk "acmd" [] "s" "" "" false none false [] [] []])
  ∧ strSorted ((Cmd.mk "t" [] "s" "" "" false none false [] []
        [Cmd.mk "bcmd" [] "s" "" "" false none false [] [] [],
         Cmd.mk "acmd" [] "s" "" "" false none false [] [] []]).subcommands.map Cmd.use)
      = false
  ∧ (collectDocsConfig tcUnsorted).commands.map CommandDoc.name = ["acmd", "bcmd"]
  ∧ strSorted ((collectDocsConfig tcUnsorted).commands.map CommandDoc.name) = true :=
  ⟨rfl, by decide, rfl, by decide⟩

/-- C4 amended: the doc generator enumerates children in
lexicographically sorted key order (its collected top-level docs are the
key-sorted, visibility-filtered children in that order, and `sortByKey`
always yields a key-sorted enumeration); the tree builder instead
preserves the map-iteration order it is handed — each subcommand list is
built child-by-child in enumeration order, which need not be sorted. -/
theorem docs_sorted_build_iteration_order :
    (∀ (α : Type) (l : List (String × α)),
      List.Pairwise (fun x y => strLe x.1 y.1 = true) (sortByKey l))
  ∧ (∀ tc, (collectDocsConfig tc).commands
      = (sortByKey tc.commands).filterMap (fun p =>
          if p.2.hidden then none
          else some (collectCommandDoc tc.root.use p.2 p.1 0)))
  ∧ (∀ fm l subs, buildRootSubcommands fm l = Except.ok subs →
      List.Forall₂ (fun p sc => buildCommand fm p.2 = Except.ok sc) l subs) := by
  refine ⟨fun α l => pairwise_sortByKey l, fun tc => rfl, ?_⟩
  intro fm l subs h
  exact buildRootSubcommands_forall₂ fm l subs h

/-- Witness for the amended C4 on `tcUnsorted`: the builder keeps the
iteration order "b", "a". -/
theorem docs_sorted_build_iteration_order_witness :
    List.Forall₂
      (fun (p : String × CommandConfig) sc => buildCommand [] p.2 = Except.ok sc)
      tcUnsorted.commands
      [Cmd.mk "bcmd" [] "s" "" "" false none false [] [] [],
       Cmd.mk "acmd" [] "s" "" "" false none false [] [] []] :=
  docs_sorted_build_iteration_order.2.2 [] tcUnsorted.commands
    [Cmd.mk "bcmd" [] "s" "" "" false none false [] [] [],
     Cmd.mk "acmd" [] "s" "" "" false none false [] [] []] (by rfl)

/-- If a name already seen recurs among the remaining root-level entries,
the duplicate message is reported. -/
theorem validateRootCommands_mem_of_seen (l : List (String × CommandConfig))
    (seen : List String) (x : String) (hx : x ∈ seen)
    (hmem : ∃ p ∈ l, resolvedCommandName p.1 p.2 = x) :
    dupRootCmdMsg x ∈ validateRootCommands l seen := by
  induction l generalizing seen with
  | nil =>
    obtain ⟨p, hp, -⟩ := hmem
    exact absurd hp (List.not_mem_nil p)
  | cons q rest ih =>
    obtain ⟨k, c⟩ := q
    obtain ⟨p, hp, hres⟩ := hmem
    rcases List.mem_cons.mp hp with h1 | h1
    · subst h1
      simp only [validateRootCommands]
      apply List.mem_append_left
      apply List.mem_append_left
      simp only [hres, hx, if_true]
      exact List.mem_singleton.mpr rfl
    · simp only [validateRootCommands]
      apply List.mem_append_right
      exact ih _ (List.mem_cons_of_mem _ hx) ⟨p, h1, hres⟩

/-- Two root-level siblings whose resolved names coincide always produce
the duplicate message, whatever was seen before them. -/
theorem validateRootCommands_dup (pre rest : List (String × CommandConfig))
    (k : String) (c : CommandConfig) (x : String)
    (hk : resolvedCommandName k c = x)
    (hmem : ∃ p ∈ rest, resolvedCommandName p.1 p.2 = x) :
    ∀ seen, dupRootCmdMsg x ∈ validateRootCommands (pre ++ (k, c) :: rest) seen := by
  induction pre with
  | nil =>
    intro seen
    simp only [List.nil_append, validateRootCommands]
    apply List.mem_append_right
    exact validateRootCommands_mem_of_seen rest _ x
      (by rw [hk]; exact List.mem_cons_self x seen) hmem
  | cons q pre2 ih =>
    intro seen
    obtain ⟨k2, c2⟩ := q
    simp only [List.cons_append, validateRootCommands]
    apply List.mem_append_right
    exact ih _

/-- C5: whenever two root-level sibling commands resolve to the same
name — the first whitespace token of `use`, falling back to the map key
when `use` yields an empty name — `ValidateConfig` reports the
duplicate-command-name violation and rejects the config, even when the
two map keys differ. -/
theorem duplicate_sibling_names_detected (tc : ToolConfig)
    (pre mid post : List (String × CommandConfig)) (k1 k2 : String)
    (c1 c2 : CommandConfig)
    (hc : tc.commands = pre ++ (k1, c1) :: mid ++ (k2, c2) :: post)
    (hn : resolvedCommandName k1 c1 = resolvedCommandName k2 c2) :
    dupRootCmdMsg (resolvedCommandName k1 c1) ∈ validateConfigErrors tc
  ∧ ValidateConfig tc ≠ none := by
  have hmem : dupRootCmdMsg (resolvedCommandName k1 c1)
      ∈ validateRootCommands tc.commands [] := by
    rw [hc]
    simp only [List.append_assoc, List.cons_append]
    exact validateRootCommands_dup pre (mid ++ (k2, c2) :: post) k1 c1
      (resolvedCommandName k1 c1) rfl
      ⟨(k2, c2), by simp, hn.symm⟩ []
  have herr : dupRootCmdMsg (resolvedCommandName k1 c1) ∈ validateConfigErrors tc := by
    unfold validateConfigErrors
    exact List.mem_append_right _ hmem
  refine ⟨herr, ?_⟩
  intro hnone
  by_cases he : (validateConfigErrors tc).isEmpty
  · rw [List.isEmpty_iff.mp he] at herr
    exact absurd herr (List.not_mem_nil _)
  · simp [ValidateConfig, he] at hnone

/-- Witness for C5: two siblings with distinct keys "k1"/"k2" whose `use`
fields both resolve to "add" are rejected with the duplicate message. -/
theorem duplicate_sibling_names_detected_witness :
    dupRootCmdMsg "add" ∈ validateConfigErrors
      ⟨"t", "", "", .mk "t" [] "s" "" none "" [] [] false,
        [("k1", .mk "add <n>" [] "s" "" none "" [] [] false),
         ("k2", .mk "add <x>" [] "s" "" none "" [] [] false)]⟩
  ∧ ValidateConfig
      ⟨"t", "", "", .mk "t" [] "s" "" none "" [] [] false,
        [("k1", .mk "add <n>" [] "s" "" none "" [] [] false),
         ("k2", .mk "add <x>" [] "s" "" none "" [] [] false)]⟩ ≠ none := by
  have h := duplicate_sibling_names_detected
    ⟨"t", "", "", .mk "t" [] "s" "" none "" [] [] false,
      [("k1", .mk "add <n>" [] "s" "" none "" [] [] false),
       ("k2", .mk "add <x>" [] "s" "" none "" [] [] false)]⟩
    [] [] [] "k1" "k2"
    (.mk "add <n>" [] "s" "" none "" [] [] false)
    (.mk "add <x>" [] "s" "" none "" [] [] false)
    rfl (by rfl)
  have hres : resolvedCommandName "k1" (.mk "add <n>" [] "s" "" none "" [] [] false)
      = "add" := by rfl
  have h1 := h.1
  rw [hres] at h1
  exact ⟨h1, h.2⟩

/-- Strings with equal character data are equal. -/
theorem string_mk_inj (x y : String) (h : x.data = y.data) : x = y := by
  cases x
  cases y
  exact congrArg String.mk h

/-- Helper: `cmdMsg` is injective in its text argument. -/
theorem cmdMsg_inj (p a b : String) (h : cmdMsg p a = cmdMsg p b) : a = b := by
  have hd := congrArg String.data h
  simp only [cmdMsg, String.data_append, List.append_assoc] at hd
  have h1 := List.append_cancel_left hd
  have h2 := List.append_cancel_left h1
  have h3 := List.append_cancel_left h2
  exact string_mk_inj _ _ h3

/-- The duplicate-flag-name message determines the flag name. -/
theorem dupFlagNameMsg_inj (p x y : String) (h : dupFlagNameMsg p x = dupFlagNameMsg p y) :
    x = y := by
  have h1 := cmdMsg_inj _ _ _ h
  have hd := congrArg String.data h1
  simp only [String.data_append, List.append_assoc] at hd
  have h2 := List.append_cancel_left hd
  have h3 := List.append_cancel_right h2
  exact string_mk_inj _ _ h3

/-- The duplicate-flag-shorthand message determines the shorthand. -/
theorem dupFlagShorthandMsg_inj (p x y : String)
    (h : dupFlagShorthandMsg p x = dupFlagShorthandMsg p y) : x = y := by
  have h1 := cmdMsg_inj _ _ _ h
  have hd := congrArg String.data h1
  simp only [String.data_append, List.append_assoc] at hd
  have h2 := List.append_cancel_left hd
  have h3 := List.append_cancel_right h2
  exact string_mk_inj _ _ h3

/-- A duplicate-name message never coincides with a duplicate-shorthand
message. -/
theorem dupFlagNameMsg_ne_shorthand (p x y : String) :
    dupFlagNameMsg p x ≠ dupFlagShorthandMsg p y := by
  intro h
  have h1 := cmdMsg_inj _ _ _ h
  have hd := congrArg String.data h1
  simp only [String.data_append, List.append_assoc] at hd
  simp only [List.cons_append] at hd
  simp at hd

/-- Counting lemma for duplicate-name messages: the loop reports the
message for name `x` once per occurrence beyond the first (or per every
occurrence when `x` was already seen). -/
theorem count_dupName_go (p x : String) (hx : x ≠ "") :
    ∀ (flags : List FlagConfig) (names shorthands : List String),
      List.count (dupFlagNameMsg p x) (validateFlagDuplicatesGo p flags names shorthands)
      = (if x ∈ names then List.countP (fun f => f.name == x) flags
         else List.countP (fun f => f.name == x) flags - 1) := by
  intro flags
  induction flags with
  | nil =>
    intro names shorthands
    simp [validateFlagDuplicatesGo]
  | cons f rest ih =>
    intro names shorthands
    simp only [validateFlagDuplicatesGo, List.count_append]
    have hL2 : List.count (dupFlagNameMsg p x)
        (if f.shorthand ≠ "" ∧ f.shorthand ∈ shorthands then
          [dupFlagShorthandMsg p f.shorthand] else []) = 0 := by
      split
      · refine List.count_eq_zero.mpr ?_
        intro hmem
        exact dupFlagNameMsg_ne_shorthand p x f.shorthand (List.mem_singleton.mp hmem)
      · simp
    rw [hL2]
    by_cases hfx : f.name = x
    · rw [hfx]
      have hcnt : List.countP (fun g => g.name == x) (f :: rest)
          = List.countP (fun g => g.name == x) rest + 1 := by
        simp [List.countP_cons, hfx]
      rw [hcnt]
      by_cases hmem : x ∈ names
      · rw [if_pos (And.intro hx hmem), if_pos hmem, if_pos hx, ih,
          if_pos (List.mem_cons_self x names)]
        have hone : List.count (dupFlagNameMsg p x) [dupFlagNameMsg p x] = 1 := by simp
        rw [hone]
        omega
      · rw [if_neg (fun hc => hmem hc.2), if_neg hmem, if_pos hx, ih,
          if_pos (List.mem_cons_self x names)]
        simp only [List.count_nil]
        omega
    · have hL1 : List.count (dupFlagNameMsg p x)
          (if f.name ≠ "" ∧ f.name ∈ names then [dupFlagNameMsg p f.name] else []) = 0 := by
        split
        · refine List.count_eq_zero.mpr ?_
          intro hmem
          exact hfx (dupFlagNameMsg_inj p x f.name (List.mem_singleton.mp hmem)).symm
        · simp
      rw [hL1]
      have hcnt : List.countP (fun g => g.name == x) (f :: rest)
          = List.countP (fun g => g.name == x) rest := by
        simp [List.countP_cons, hfx]
      rw [hcnt, ih]
      have hiff : (x ∈ (if f.name ≠ "" then f.name :: names else names)) ↔ x ∈ names := by
        split
        · simp only [List.mem_cons]
          constructor
          · rintro (h | h)
            · exact absurd h.symm hfx
            · exact h
          · exact Or.inr
        · exact Iff.rfl
      rw [if_congr hiff rfl rfl]
      by_cases hmem : x ∈ names
      · omega
      · omega

/-- Counting lemma for duplicate-shorthand messages, symmetric to
`count_dupName_go`. -/
theorem count_dupShorthand_go (p x : String) (hx : x ≠ "") :
    ∀ (flags : List FlagConfig) (names shorthands : List String),
      List.count (dupFlagShorthandMsg p x)
        (validateFlagDuplicatesGo p flags names shorthands)
      = (if x ∈ shorthands then List.countP (fun f => f.shorthand == x) flags
         else List.countP (fun f => f.shorthand == x) flags - 1) := by
  intro flags
  induction flags with
  | nil =>
    intro names shorthands
    simp [validateFlagDuplicatesGo]
  | cons f rest ih =>
    intro names shorthands
    simp only [validateFlagDuplicatesGo, List.count_append]
    have hL1 : List.count (dupFlagShorthandMsg p x)
        (if f.name ≠ "" ∧ f.name ∈ names then [dupFlagNameMsg p f.name] else []) = 0 := by
      split
      · refine List.count_eq_zero.mpr ?_
        intro hmem
        exact dupFlagNameMsg_ne_shorthand p f.name x (List.mem_singleton.mp hmem).symm
      · simp
    rw [hL1]
    by_cases hfx : f.shorthand = x
    · rw [hfx]
      have hcnt : List.countP (fun g => g.shorthand == x) (f :: rest)
          = List.countP (fun g => g.shorthand == x) rest + 1 := by
        simp [List.countP_cons, hfx]
      rw [hcnt]
      by_cases hmem : x ∈ shorthands
      · rw [if_pos (And.intro hx hmem), if_pos hmem, if_pos hx, ih,
          if_pos (List.mem_cons_self x shorthands)]
        have hone : List.count (dupFlagShorthandMsg p x) [dupFlagShorthandMsg p x] = 1 := by
          simp
        rw [hone]
        omega
      · rw [if_neg (fun hc => hmem hc.2), if_neg hmem, if_pos hx, ih,
          if_pos (List.mem_cons_self x shorthands)]
        simp only [List.count_nil]
        omega
    · have hL2 : List.count (dupFlagShorthandMsg p x)
          (if f.shorthand ≠ "" ∧ f.shorthand ∈ shorthands then
            [dupFlagShorthandMsg p f.shorthand] else []) = 0 := by
        split
        · refine List.count_eq_zero.mpr ?_
          intro hmem
          exact hfx (dupFlagShorthandMsg_inj p x f.shorthand
            (List.mem_singleton.mp hmem)).symm
        · simp
      rw [hL2]
      have hcnt : List.countP (fun g => g.shorthand == x) (f :: rest)
          = List.countP (fun g => g.shorthand == x) rest := by
        simp [List.countP_cons, hfx]
      rw [hcnt, ih]
      have hiff : (x ∈ (if f.shorthand ≠ "" then f.shorthand :: shorthands else shorthands))
          ↔ x ∈ shorthands := by
        split
        · simp only [List.mem_cons]
          constructor
          · rintro (h | h)
            · exact absurd h.symm hfx
            · exact h
          · exact Or.inr
        · exact Iff.rfl
      rw [if_congr hiff rfl rfl]
      by_cases hmem : x ∈ shorthands
      · omega
      · omega

/-- The loop never emits a duplicate message for the empty shorthand. -/
theorem empty_shorthand_never_collides (p : String) :
    ∀ (flags : List FlagConfig) (names shorthands : List String),
      dupFlagShorthandMsg p "" ∉ validateFlagDuplicatesGo p flags names shorthands := by
  intro flags
  induction flags with
  | nil =>
    intro names shorthands
    simp [validateFlagDuplicatesGo]
  | cons f rest ih =>
    intro names shorthands
    simp only [validateFlagDuplicatesGo, List.mem_append]
    rintro ((h | h) | h)
    · revert h
      split
      · intro h
        exact dupFlagNameMsg_ne_shorthand p f.name "" (List.mem_singleton.mp h).symm
      · intro h
        exact absurd h (List.not_mem_nil _)
    · revert h
      split
      · rename_i hcond
        intro h
        exact hcond.1 (dupFlagShorthandMsg_inj p "" f.shorthand
          (List.mem_singleton.mp h)).symm
      · intro h
        exact absurd h (List.not_mem_nil _)
    · exact ih _ _ h

/-- C9: within one node's flag list, a pair of entries with equal
non-empty name produces exactly one duplicate-name violation (one per
colliding pair, not a quadratic number); a pair with equal non-empty
shorthand produces exactly one duplicate-shorthand violation; and empty
shorthands never collide. -/
theorem duplicate_flag_pair_reported_once (p x : String) (flags : List FlagConfig)
    (hx : x ≠ "") :
    (List.countP (fun f => f.name == x) flags = 2 →
      List.count (dupFlagNameMsg p x) (validateFlagDuplicates flags p) = 1)
  ∧ (List.countP (fun f => f.shorthand == x) flags = 2 →
      List.count (dupFlagShorthandMsg p x) (validateFlagDuplicates flags p) = 1)
  ∧ dupFlagShorthandMsg p "" ∉ validateFlagDuplicates flags p := by
  refine ⟨?_, ?_, ?_⟩
  · intro hc
    unfold validateFlagDuplicates
    rw [count_dupName_go p x hx flags [] []]
    simp [hc]
  · intro hc
    unfold validateFlagDuplicates
    rw [count_dupShorthand_go p x hx flags [] []]
    simp [hc]
  · exact empty_shorthand_never_collides p flags [] []

/-- Witness for C9 on a three-flag list: the two "force" names collide
once, the two "f" shorthands collide once, and the empty shorthands of
the remaining flags never produce a message. -/
theorem duplicate_flag_pair_reported_once_witness :
    List.count (dupFlagNameMsg "root" "force")
      (validateFlagDuplicates
        [⟨"force", "f", "bool", "", "u", false, false, false⟩,
         ⟨"force", "f", "bool", "", "u", false, false, false⟩,
         ⟨"other", "", "bool", "", "u", false, false, false⟩] "root") = 1
  ∧ List.count (dupFlagShorthandMsg "root" "f")
      (validateFlagDuplicates
        [⟨"force", "f", "bool", "", "u", false, false, false⟩,
         ⟨"force", "f", "bool", "", "u", false, false, false⟩,
         ⟨"other", "", "bool", "", "u", false, false, false⟩] "root") = 1
  ∧ dupFlagShorthandMsg "root" "" ∉ validateFlagDuplicates
      [⟨"force", "f", "bool", "", "u", false, false, false⟩,
       ⟨"force", "f", "bool", "", "u", false, false, false⟩,
       ⟨"other", "", "bool", "", "u", false, false, false⟩] "root" := by
  have h1 := duplicate_flag_pair_reported_once "root" "force"
    [⟨"force", "f", "bool", "", "u", false, false, false⟩,
     ⟨"force", "f", "bool", "", "u", false, false, false⟩,
     ⟨"other", "", "bool", "", "u", false, false, false⟩] (by decide)
  have h2 := duplicate_flag_pair_reported_once "root" "f"
    [⟨"force", "f", "bool", "", "u", false, false, false⟩,
     ⟨"force", "f", "bool", "", "u", false, false, false⟩,
     ⟨"other", "", "bool", "", "u", false, false, false⟩] (by decide)
  exact ⟨h1.1 (by decide), h2.2.1 (by decide), h1.2.2⟩

/-- Insertion is a permutation. -/
theorem insertByKey_perm {α : Type} (p : String × α) (l : List (String × α)) :
    List.Perm (insertByKey p l) (p :: l) := by
  induction l with
  | nil => exact List.Perm.refl _
  | cons q rest ih =>
    simp only [insertByKey]
    split
    · exact List.Perm.refl _
    · exact (ih.cons q).trans (List.Perm.swap p q rest)

/-- The key sort is a permutation. -/
theorem sortByKey_perm {α : Type} (l : List (String × α)) :
    List.Perm (sortByKey l) l := by
  induction l with
  | nil => exact List.Perm.refl _
  | cons p rest ih =>
    exact (insertByKey_perm p (sortByKey rest)).trans (ih.cons p)

/-- Lemma: `docCountList` is the sum of the member counts. -/
theorem docCountList_eq_sum (l : List CommandDoc) :
    docCountList l = (l.map docCount).sum := by
  induction l with
  | nil => rfl
  | cons d rest ih => simp [docCountList, ih]

/-- Lemma: `visibleCountChildren` as a sum over the children. -/
theorem visibleCountChildren_eq_sum (l : List (String × CommandConfig)) :
    visibleCountChildren l
      = (l.map (fun p => if p.2.hidden then 0 else visibleCount p.2)).sum := by
  induction l with
  | nil => rfl
  | cons p rest ih =>
    obtain ⟨k, c⟩ := p
    simp [visibleCountChildren, ih]

/-- Replacing the full path changes neither the heading count... -/
theorem docCount_withFullPath (d : CommandDoc) (s : String) :
    docCount (d.withFullPath s) = docCount d := by
  cases d
  rfl

/-- Likewise the full path replacement keeps flag-row visibility. -/
theorem docFlagsVisible_withFullPath (d : CommandDoc) (s : String) :
    docFlagsVisible (d.withFullPath s) = docFlagsVisible d := by
  cases d
  rfl

/-- Every flag surviving `filterVisibleFlags` is visible. -/
theorem filterVisibleFlags_all (fl : List FlagConfig) :
    (filterVisibleFlags fl).all (fun f => !f.hidden) = true := by
  rw [List.all_eq_true]
  intro f hf
  exact (List.mem_filter.mp hf).2

/-- The subcommand docs assembled from visible children: heading count
equals the visible-subtree count, and all flag rows stay visible. -/
theorem subs_visible (ts : List (String × CommandConfig × CommandDoc))
    (s : (String × CommandConfig × CommandDoc) → String)
    (hts : ∀ t ∈ ts, docCount t.2.2 = visibleCount t.2.1
      ∧ docFlagsVisible t.2.2 = true) :
    docCountList (ts.filterMap (fun t =>
        if t.2.1.hidden then none else some (t.2.2.withFullPath (s t))))
      = (ts.map (fun t => if t.2.1.hidden then 0 else visibleCount t.2.1)).sum
    ∧ docFlagsVisibleList (ts.filterMap (fun t =>
        if t.2.1.hidden then none else some (t.2.2.withFullPath (s t)))) = true := by
  induction ts with
  | nil => exact ⟨rfl, rfl⟩
  | cons t rest ih =>
    obtain ⟨hcount, hflags⟩ := hts t (List.mem_cons_self t rest)
    obtain ⟨ihc, ihf⟩ := ih (fun t2 ht2 => hts t2 (List.mem_cons_of_mem t ht2))
    by_cases hh : t.2.1.hidden
    · constructor
      · simp only [List.filterMap_cons, hh, if_true, List.map_cons, List.sum_cons]
        rw [ihc]
        simp
      · simp only [List.filterMap_cons, hh, if_true]
        exact ihf
    · constructor
      · simp only [List.filterMap_cons, hh, if_false, List.map_cons, List.sum_cons]
        simp only [docCountList]
        rw [docCount_withFullPath, hcount, ihc]
        simp [hh]
      · simp only [List.filterMap_cons, hh, if_false]
        simp only [docFlagsVisibleList]
        rw [docFlagsVisible_withFullPath]
        simp [hflags, ihf]

/-- The per-child visible-subtree sum over the collected triples equals
`visibleCountChildren`. -/
theorem childDocs_cfg_sum (ru : String) (l : List (String × CommandConfig)) (d : Nat) :
    ((collectChildDocs ru l d).map
        (fun t => if t.2.1.hidden then 0 else visibleCount t.2.1)).sum
      = visibleCountChildren l := by
  induction l with
  | nil => rfl
  | cons p rest ih =>
    obtain ⟨k, c⟩ := p
    simp only [collectChildDocs, List.map_cons, List.sum_cons, visibleCountChildren]
    rw [ih]

/-- Each collected command document gives exactly one heading per node
visible through visible ancestors, and only visible flag rows. -/
theorem collect_visible (ru : String) :
    ∀ (c : CommandConfig) (k : String) (d : Nat),
      docCount (collectCommandDoc ru c k d) = visibleCount c
      ∧ docFlagsVisible (collectCommandDoc ru c k d) = true := by
  refine collectCommandDoc.induct ru
    (fun c k d => docCount (collectCommandDoc ru c k d) = visibleCount c
      ∧ docFlagsVisible (collectCommandDoc ru c k d) = true)
    (fun l d => ∀ t ∈ collectChildDocs ru l d,
      docCount t.2.2 = visibleCount t.2.1 ∧ docFlagsVisible t.2.2 = true)
    ?_ ?_ ?_
  · intro u al sh lo args rf fl cmds hid name depth hQ
    have hts : ∀ t ∈ sortByKey (collectChildDocs ru cmds (depth + 1)),
        docCount t.2.2 = visibleCount t.2.1 ∧ docFlagsVisible t.2.2 = true := by
      intro t ht
      exact hQ t ((sortByKey_perm _).mem_iff.mp ht)
    obtain ⟨hc, hf⟩ := subs_visible (sortByKey (collectChildDocs ru cmds (depth + 1)))
      (fun t => (ru ++ " " ++ u) ++ " " ++ docDisplayName t.2.1.use t.1) hts
    constructor
    · simp only [collectCommandDoc, docCount, visibleCount]
      rw [hc]
      have hperm := (sortByKey_perm (collectChildDocs ru cmds (depth + 1))).map
        (fun t => if t.2.1.hidden then 0 else visibleCount t.2.1)
      rw [hperm.sum_eq, childDocs_cfg_sum]
    · simp only [collectCommandDoc, docFlagsVisible, Bool.and_eq_true]
      exact ⟨filterVisibleFlags_all fl, hf⟩
  · intro x t ht
    simp [collectChildDocs] at ht
  · intro k c rest d hP hQ t ht
    simp only [collectChildDocs, List.mem_cons] at ht
    rcases ht with h1 | h1
    · subst h1
      exact hP
    · exact hQ t h1

/-- Top-level variant of `subs_visible` (the root loop attaches no full
path fixup). -/
theorem top_visible (ru : String) (ps : List (String × CommandConfig))
    (hp : ∀ p ∈ ps, docCount (collectCommandDoc ru p.2 p.1 0) = visibleCount p.2
      ∧ docFlagsVisible (collectCommandDoc ru p.2 p.1 0) = true) :
    docCountList (ps.filterMap (fun p =>
        if p.2.hidden then none else some (collectCommandDoc ru p.2 p.1 0)))
      = (ps.map (fun p => if p.2.hidden then 0 else visibleCount p.2)).sum
    ∧ docFlagsVisibleList (ps.filterMap (fun p =>
        if p.2.hidden then none else some (collectCommandDoc ru p.2 p.1 0))) = true := by
  induction ps with
  | nil => exact ⟨rfl, rfl⟩
  | cons p rest ih =>
    obtain ⟨hcount, hflags⟩ := hp p (List.mem_cons_self p rest)
    obtain ⟨ihc, ihf⟩ := ih (fun p2 hp2 => hp p2 (List.mem_cons_of_mem p hp2))
    by_cases hh : p.2.hidden
    · constructor
      · simp only [List.filterMap_cons, hh, if_true, List.map_cons, List.sum_cons]
        rw [ihc]
        simp
      · simp only [List.filterMap_cons, hh, if_true]
        exact ihf
    · constructor
      · simp only [List.filterMap_cons, hh, if_false, List.map_cons, List.sum_cons]
        simp only [docCountList]
        rw [hcount, ihc]
        simp [hh]
      · simp only [List.filterMap_cons, hh, if_false]
        simp only [docFlagsVisibleList]
        simp [hflags, ihf]

/-- C8: the generated documentation gives no heading to any hidden
command node (nor to anything below it) and no flag-table row to any
hidden flag: the collected doc structure — of which the template emits
exactly one heading per `CommandDoc` and one row per entry of a `flags`
list — contains exactly one `CommandDoc` per node that is visible through
visible ancestors, and every flag entry of every collected document
(root section included) has `hidden = false`, regardless of `run_func`
or `required` settings. -/
theorem docs_omit_hidden (tc : ToolConfig) :
    ((collectDocsConfig tc).rootCommand.flags.all (fun f => !f.hidden)) = true
  ∧ docFlagsVisibleList (collectDocsConfig tc).commands = true
  ∧ docCountList (collectDocsConfig tc).commands = visibleCountChildren tc.commands := by
  have hp : ∀ p ∈ sortByKey tc.commands,
      docCount (collectCommandDoc tc.root.use p.2 p.1 0) = visibleCount p.2
      ∧ docFlagsVisible (collectCommandDoc tc.root.use p.2 p.1 0) = true :=
    fun p _ => collect_visible tc.root.use p.2 p.1 0
  obtain ⟨hc, hf⟩ := top_visible tc.root.use (sortByKey tc.commands) hp
  refine ⟨?_, ?_, ?_⟩
  · simp only [collectDocsConfig, CommandDoc.flags]
    exact filterVisibleFlags_all tc.root.flags
  · simp only [collectDocsConfig]
    exact hf
  · simp only [collectDocsConfig]
    rw [hc]
    have hperm := (sortByKey_perm tc.commands).map
      (fun p => if p.2.hidden then 0 else visibleCount p.2)
    rw [hperm.sum_eq, ← visibleCountChildren_eq_sum]
